import Mathlib

/-!
Shallow embedding of the api-gateway rate-limiter middleware
(`middleware.RateLimiter` and its `TokenBucket`) and proofs of the
specified admission-control properties.

Modelling conventions:
* Go `float64` token counts, rates and elapsed seconds are modelled as `ℚ`.
* `time.Time` values are modelled as a rational number of seconds; the
  clock instant `now` read inside `Allow`/`cleanup` becomes an explicit
  argument of the Lean function.
* The Go map `map[string]*TokenBucket` is modelled as a partial function
  `String → Option TokenBucket`; pointer mutation becomes functional update.
* The mutex serialises all operations, so each `Allow`/`cleanup` call is a
  single atomic state transition `RateLimiter → RateLimiter`.
-/

namespace Gateway

/-- `TokenBucket` from the middleware: fractional token count, timestamp of
the last refill, integer capacity, and refill rate in tokens per second. -/
structure TokenBucket where
  tokens : ℚ
  lastRefil : ℚ
  capacity : ℤ
  rate : ℚ
  deriving Repr, DecidableEq

/-- The Go file's local helper `min(a, b float64) float64`. -/
def goMin (a b : ℚ) : ℚ := if a < b then a else b

/-- `RateLimiter` state: per-IP bucket map, the global bucket, and the
configuration scalars stored at construction (the logger is irrelevant to
admission decisions and is omitted). -/
structure RateLimiter where
  ipLimits : String → Option TokenBucket
  globalBucket : TokenBucket
  ipRate : ℚ
  ipBurst : ℤ
  globalRate : ℚ
  globalBurst : ℤ
  cleanupEvery : ℚ

/-- `NewRateLimiter`: empty map, full global bucket stamped with the current
time, configuration copied, `cleanupEvery` hard-wired to 10 minutes
(600 seconds). The background janitor goroutine is modelled separately by
`cleanup` steps. -/
def newRateLimiter (ipRate : ℚ) (ipBurst : ℤ) (globalRate : ℚ)
    (globalBurst : ℤ) (now : ℚ) : RateLimiter :=
  { ipLimits := fun _ => none
    globalBucket :=
      { tokens := (globalBurst : ℚ), lastRefil := now
        capacity := globalBurst, rate := globalRate }
    ipRate := ipRate
    ipBurst := ipBurst
    globalRate := globalRate
    globalBurst := globalBurst
    cleanupEvery := 600 }

/-- `RateLimiter.refillBucket`: compute the seconds elapsed since the last
refill, stamp the bucket with `now`, and add `elapsed * rate` tokens clamped
to the capacity by the file's `min` helper. -/
def refillBucket (b : TokenBucket) (now : ℚ) : TokenBucket :=
  { b with
    lastRefil := now
    tokens := goMin (b.capacity : ℚ) (b.tokens + (now - b.lastRefil) * b.rate) }

/-- The per-client bucket `Allow` works on after the global check: the
existing bucket refilled at `now`, or a fresh full bucket for an unseen ip. -/
def clientBucketAt (rl : RateLimiter) (ip : String) (now : ℚ) : TokenBucket :=
  match rl.ipLimits ip with
  | none =>
      { tokens := (rl.ipBurst : ℚ), lastRefil := now
        capacity := rl.ipBurst, rate := rl.ipRate }
  | some b => refillBucket b now

/-- `RateLimiter.Allow`: refill the global bucket; reject if it holds fewer
than one token; otherwise charge it one token, look up or lazily create the
client bucket (refilled in place when it exists), reject if that bucket
holds fewer than one token, otherwise charge it and admit. Returns the
decision together with the post-call state. -/
def allow (rl : RateLimiter) (ip : String) (now : ℚ) : Bool × RateLimiter :=
  let g := refillBucket rl.globalBucket now
  if g.tokens < 1 then
    (false, { rl with globalBucket := g })
  else
    let g2 : TokenBucket := { g with tokens := g.tokens - 1 }
    let bucket := clientBucketAt rl ip now
    if bucket.tokens < 1 then
      (false, { rl with
        globalBucket := g2
        ipLimits := fun k => if k = ip then some bucket else rl.ipLimits k })
    else
      (true, { rl with
        globalBucket := g2
        ipLimits := fun k =>
          if k = ip then some { bucket with tokens := bucket.tokens - 1 }
          else rl.ipLimits k })

/-- One sweep of the janitor loop in `RateLimiter.cleanup`: delete every
per-ip bucket whose tokens equal its capacity and whose last refill is more
than `cleanupEvery` seconds old. -/
def cleanup (rl : RateLimiter) (now : ℚ) : RateLimiter :=
  { rl with
    ipLimits := fun k =>
      match rl.ipLimits k with
      | none => none
      | some b =>
          if b.tokens = (b.capacity : ℚ) ∧ now - b.lastRefil > rl.cleanupEvery
          then none else some b }

/-- Run `n` consecutive `allow` calls for the same ip at the same instant,
collecting the decisions in order. -/
def allowRun (rl : RateLimiter) (ip : String) (now : ℚ) :
    Nat → List Bool × RateLimiter
  | 0 => ([], rl)
  | n + 1 =>
      let r := allow rl ip now
      let rest := allowRun r.2 ip now n
      (r.1 :: rest.1, rest.2)

theorem goMin_eq_min (a b : ℚ) : goMin a b = min a b := by
  simp only [goMin, min_def]
  split <;> split <;> first | rfl | linarith

theorem goMin_le_left (a b : ℚ) : goMin a b ≤ a := by
  rw [goMin_eq_min]; exact min_le_left a b

theorem one_le_goMin (a b : ℚ) (ha : 1 ≤ a) (hb : 1 ≤ b) : 1 ≤ goMin a b := by
  rw [goMin_eq_min]; exact le_min ha hb

/-- C5: the refill operation computes exactly
`tokens' = min(capacity, tokens + (now - lastRefillAt) * rate)` over the
rationals (continuous, no tick discretisation), stamps `lastRefillAt = now`,
and leaves `capacity` and `rate` unchanged; `allow` applies this single
function both to the global bucket and to per-client buckets. -/
theorem refillBucket_formula (b : TokenBucket) (now : ℚ) :
    (refillBucket b now).tokens
        = min (b.capacity : ℚ) (b.tokens + (now - b.lastRefil) * b.rate) ∧
    (refillBucket b now).lastRefil = now ∧
    (refillBucket b now).capacity = b.capacity ∧
    (refillBucket b now).rate = b.rate :=
  ⟨goMin_eq_min _ _, rfl, rfl, rfl⟩

/-- C10 (counterexample): with a negative refill rate the refill operation
can strictly decrease the stored token count even though
`0 ≤ tokens ≤ capacity` and `lastRefillAt ≤ now` hold, so the claim as
stated (without a nonnegativity assumption on the rate) is false. -/
theorem refill_monotone_counterexample :
    0 ≤ (⟨1, 0, 1, -1⟩ : TokenBucket).tokens ∧
    (⟨1, 0, 1, -1⟩ : TokenBucket).tokens
        ≤ ((⟨1, 0, 1, -1⟩ : TokenBucket).capacity : ℚ) ∧
    (⟨1, 0, 1, -1⟩ : TokenBucket).lastRefil ≤ (1 : ℚ) ∧
    (refillBucket ⟨1, 0, 1, -1⟩ 1).tokens
        < (⟨1, 0, 1, -1⟩ : TokenBucket).tokens := by
  norm_num [refillBucket, goMin]

/-- C10 (amended): for a bucket with `0 ≤ tokens ≤ capacity`, a monotone
timestamp and a NONNEGATIVE rate, refill never decreases the token count;
and refill is idempotent at a fixed instant unconditionally. -/
theorem refill_monotone_and_idempotent (b : TokenBucket) (now : ℚ) :
    (0 ≤ b.tokens → b.tokens ≤ (b.capacity : ℚ) → b.lastRefil ≤ now →
      0 ≤ b.rate → b.tokens ≤ (refillBucket b now).tokens) ∧
    refillBucket (refillBucket b now) now = refillBucket b now := by
  constructor
  · intro _ hc hl hr
    show b.tokens ≤ goMin _ _
    rw [goMin_eq_min]
    exact le_min hc
      (le_add_of_nonneg_right (mul_nonneg (by linarith) hr))
  · show ({ refillBucket b now with
        lastRefil := now,
        tokens := goMin ((refillBucket b now).capacity : ℚ)
          ((refillBucket b now).tokens
            + (now - (refillBucket b now).lastRefil) * (refillBucket b now).rate) }
      : TokenBucket) = refillBucket b now
    simp only [refillBucket, goMin_eq_min, sub_self, zero_mul, add_zero]
    rw [← min_assoc, min_self]

/-- C10 (witness): the amended monotonicity at a concrete bucket with
positive rate. -/
theorem refill_monotone_and_idempotent_witness :
    (0 : ℚ) ≤ (⟨3, 0, 10, 2⟩ : TokenBucket).tokens ∧
    (⟨3, 0, 10, 2⟩ : TokenBucket).tokens
        ≤ ((⟨3, 0, 10, 2⟩ : TokenBucket).capacity : ℚ) ∧
    (⟨3, 0, 10, 2⟩ : TokenBucket).lastRefil ≤ (4 : ℚ) ∧
    (0 : ℚ) ≤ (⟨3, 0, 10, 2⟩ : TokenBucket).rate ∧
    (⟨3, 0, 10, 2⟩ : TokenBucket).tokens ≤ (refillBucket ⟨3, 0, 10, 2⟩ 4).tokens := by
  have h0 : (0 : ℚ) ≤ (⟨3, 0, 10, 2⟩ : TokenBucket).tokens := by norm_num
  have hc : (⟨3, 0, 10, 2⟩ : TokenBucket).tokens
      ≤ ((⟨3, 0, 10, 2⟩ : TokenBucket).capacity : ℚ) := by norm_num
  have hl : (⟨3, 0, 10, 2⟩ : TokenBucket).lastRefil ≤ (4 : ℚ) := by norm_num
  have hr : (0 : ℚ) ≤ (⟨3, 0, 10, 2⟩ : TokenBucket).rate := by norm_num
  exact ⟨h0, hc, hl, hr,
    (refill_monotone_and_idempotent ⟨3, 0, 10, 2⟩ 4).1 h0 hc hl hr⟩

/-- C9 (counterexample): two constructions with entirely different
caller-supplied parameters both get the same hard-wired 600-second
(10-minute) janitor sweep period, so the period is a constant fixed
independently of the constructor's inputs, not a caller-supplied
configuration value. -/
theorem cleanupEvery_not_configurable :
    (newRateLimiter 1 2 3 4 0).cleanupEvery = 600 ∧
    (newRateLimiter 5 6 7 8 9).cleanupEvery = 600 ∧
    (newRateLimiter 1 2 3 4 0).cleanupEvery
      = (newRateLimiter 5 6 7 8 9).cleanupEvery := by
  norm_num [newRateLimiter]

/-- C9 (amended): for every construction, the janitor sweep period is the
constant 600 seconds (10 minutes), independent of all constructor inputs;
the constructor has no sweep-interval parameter. -/
theorem cleanupEvery_constant (ipRate : ℚ) (ipBurst : ℤ) (globalRate : ℚ)
    (globalBurst : ℤ) (now : ℚ) :
    (newRateLimiter ipRate ipBurst globalRate globalBurst now).cleanupEvery
      = 600 := rfl

/-- C8: the constructor performs no validation whatsoever — called with a
negative per-client rate it still returns a controller that stores the
negative rate and operates normally (here it admits a request), instead of
failing fast. This exhibits the code's divergence from the claimed
construction-time rejection of zero/negative rates. -/
theorem newRateLimiter_accepts_negative_rate :
    (newRateLimiter (-1) 1 5 5 0).ipRate = -1 ∧
    (allow (newRateLimiter (-1) 1 5 5 0) "203.0.113.7" 0).1 = true := by
  norm_num [allow, newRateLimiter, refillBucket, clientBucketAt, goMin]

/-- C6: a janitor sweep deletes an existing per-client bucket exactly when
its tokens equal its capacity and its last refill is older than the sweep
period; otherwise the bucket survives unchanged (in particular a not-full
bucket is never evicted, regardless of age), and the global bucket is
untouched by every sweep. -/
theorem cleanup_evicts_exactly_full_and_stale (rl : RateLimiter) (now : ℚ)
    (ip : String) (b : TokenBucket) (hb : rl.ipLimits ip = some b) :
    ((cleanup rl now).ipLimits ip
      = if b.tokens = (b.capacity : ℚ) ∧ now - b.lastRefil > rl.cleanupEvery
        then none else some b) ∧
    (cleanup rl now).globalBucket = rl.globalBucket := by
  constructor
  · simp only [cleanup, hb]
  · rfl

/-- C6 (witness): after one admitted call the client's bucket is below
capacity, and a sweep far in the future leaves it in place. -/
theorem cleanup_evicts_exactly_full_and_stale_witness :
    (allow (newRateLimiter 1 2 100 100 0) "c" 0).2.ipLimits "c"
        = some ⟨1, 0, 2, 1⟩ ∧
    (cleanup (allow (newRateLimiter 1 2 100 100 0) "c" 0).2 100000).ipLimits "c"
        = some ⟨1, 0, 2, 1⟩ ∧
    (cleanup (allow (newRateLimiter 1 2 100 100 0) "c" 0).2 100000).globalBucket
        = (allow (newRateLimiter 1 2 100 100 0) "c" 0).2.globalBucket := by
  have hb : (allow (newRateLimiter 1 2 100 100 0) "c" 0).2.ipLimits "c"
      = some ⟨1, 0, 2, 1⟩ := by
    norm_num [allow, newRateLimiter, refillBucket, clientBucketAt, goMin]
  have h := cleanup_evicts_exactly_full_and_stale
    (allow (newRateLimiter 1 2 100 100 0) "c" 0).2 100000 "c" ⟨1, 0, 2, 1⟩ hb
  refine ⟨hb, ?_, h.2⟩
  rw [h.1]
  norm_num [allow, newRateLimiter, refillBucket, clientBucketAt, goMin]

/-- C1: whenever the refilled global bucket holds at least one token but the
client's (refilled or freshly created) bucket holds fewer than one, `Allow`
rejects — and the global bucket still sits one token below its post-refill
value: the global charge is not refunded on per-client rejection. -/
theorem allow_no_global_refund (rl : RateLimiter) (ip : String) (now : ℚ)
    (hg : 1 ≤ (refillBucket rl.globalBucket now).tokens)
    (hc : (clientBucketAt rl ip now).tokens < 1) :
    (allow rl ip now).1 = false ∧
    (allow rl ip now).2.globalBucket.tokens
      = (refillBucket rl.globalBucket now).tokens - 1 := by
  have hg' : ¬ (refillBucket rl.globalBucket now).tokens < 1 := not_lt.mpr hg
  simp [allow, hg', hc]

/-- C1 (witness): client "x" exhausts its 1-token bucket; the immediately
following call is rejected per-client yet still costs a global token
(global count drops from its post-refill value 4 to 3). -/
theorem allow_no_global_refund_witness :
    1 ≤ (refillBucket (allow (newRateLimiter 1 1 5 5 0) "x" 0).2.globalBucket 0).tokens ∧
    (clientBucketAt (allow (newRateLimiter 1 1 5 5 0) "x" 0).2 "x" 0).tokens < 1 ∧
    (allow (allow (newRateLimiter 1 1 5 5 0) "x" 0).2 "x" 0).1 = false ∧
    (allow (allow (newRateLimiter 1 1 5 5 0) "x" 0).2 "x" 0).2.globalBucket.tokens
      = (refillBucket (allow (newRateLimiter 1 1 5 5 0) "x" 0).2.globalBucket 0).tokens
          - 1 := by
  have hg : 1 ≤ (refillBucket
      (allow (newRateLimiter 1 1 5 5 0) "x" 0).2.globalBucket 0).tokens := by
    norm_num [allow, newRateLimiter, refillBucket, clientBucketAt, goMin]
  have hc : (clientBucketAt (allow (newRateLimiter 1 1 5 5 0) "x" 0).2 "x" 0).tokens
      < 1 := by
    norm_num [allow, newRateLimiter, refillBucket, clientBucketAt, goMin]
  exact ⟨hg, hc, allow_no_global_refund _ "x" 0 hg hc⟩

/-- C3: when the refilled global bucket holds fewer than one token, `Allow`
rejects every client — brand-new ones included — and the per-client map is
left completely unchanged: no bucket is created, refilled or decremented. -/
theorem allow_global_exhausted (rl : RateLimiter) (ip : String) (now : ℚ)
    (hg : (refillBucket rl.globalBucket now).tokens < 1) :
    (allow rl ip now).1 = false ∧
    (allow rl ip now).2.ipLimits = rl.ipLimits := by
  simp [allow, hg]

/-- C3 (witness): the `globalRate=1, globalBurst=1` scenario — `Allow("a")`
consumes the sole global token and succeeds; the immediate `Allow("b")` is
rejected even though "b" was never seen, and the map is unchanged. -/
theorem allow_global_exhausted_witness :
    (allow (newRateLimiter 1 1 1 1 0) "a" 0).1 = true ∧
    (refillBucket (allow (newRateLimiter 1 1 1 1 0) "a" 0).2.globalBucket 0).tokens
        < 1 ∧
    (allow (allow (newRateLimiter 1 1 1 1 0) "a" 0).2 "b" 0).1 = false ∧
    (allow (allow (newRateLimiter 1 1 1 1 0) "a" 0).2 "b" 0).2.ipLimits
      = (allow (newRateLimiter 1 1 1 1 0) "a" 0).2.ipLimits := by
  have h1 : (allow (newRateLimiter 1 1 1 1 0) "a" 0).1 = true := by
    norm_num [allow, newRateLimiter, refillBucket, clientBucketAt, goMin]
  have hg : (refillBucket
      (allow (newRateLimiter 1 1 1 1 0) "a" 0).2.globalBucket 0).tokens < 1 := by
    norm_num [allow, newRateLimiter, refillBucket, clientBucketAt, goMin]
  exact ⟨h1, hg, allow_global_exhausted _ "b" 0 hg⟩

/-- The spec's bucket invariant: `0 ≤ tokens ≤ capacity`. -/
def BucketInv (b : TokenBucket) : Prop :=
  0 ≤ b.tokens ∧ b.tokens ≤ (b.capacity : ℚ)

/-- Well-formedness of the whole limiter state: the global bucket and every
per-client bucket satisfy the token invariant and carry a nonnegative rate,
and the stored per-client configuration is nonnegative (so lazily created
buckets are well-formed too). -/
def Inv (s : RateLimiter) : Prop :=
  (BucketInv s.globalBucket ∧ 0 ≤ s.globalBucket.rate) ∧
  (∀ ip b, s.ipLimits ip = some b → BucketInv b ∧ 0 ≤ b.rate) ∧
  0 ≤ s.ipRate ∧ (0 : ℤ) ≤ s.ipBurst

/-- Timestamps are monotone: `now` is not before any bucket's last refill. -/
def TimeOK (s : RateLimiter) (now : ℚ) : Prop :=
  s.globalBucket.lastRefil ≤ now ∧
  ∀ ip b, s.ipLimits ip = some b → b.lastRefil ≤ now

theorem refill_preserves_BucketInv (b : TokenBucket) (now : ℚ)
    (hb : BucketInv b) (hr : 0 ≤ b.rate) (ht : b.lastRefil ≤ now) :
    BucketInv (refillBucket b now) := by
  obtain ⟨h0, hc⟩ := hb
  constructor
  · show 0 ≤ goMin _ _
    rw [goMin_eq_min]
    exact le_min (le_trans h0 hc)
      (add_nonneg h0 (mul_nonneg (by linarith) hr))
  · exact goMin_le_left _ _

theorem clientBucketAt_Inv (s : RateLimiter) (ip : String) (now : ℚ)
    (hInv : Inv s) (hT : TimeOK s now) :
    BucketInv (clientBucketAt s ip now) ∧ 0 ≤ (clientBucketAt s ip now).rate := by
  obtain ⟨_, hmap, hir, hib⟩ := hInv
  cases h : s.ipLimits ip with
  | none =>
      simp only [clientBucketAt, h]
      refine ⟨⟨?_, le_refl _⟩, hir⟩
      show (0 : ℚ) ≤ ((s.ipBurst : ℤ) : ℚ)
      exact_mod_cast hib
  | some b =>
      obtain ⟨hbB, hbR⟩ := hmap ip b h
      simp only [clientBucketAt, h]
      exact ⟨refill_preserves_BucketInv b now hbB hbR (hT.2 ip b h), hbR⟩

theorem allow_preserves_Inv (s : RateLimiter) (ip : String) (now : ℚ)
    (hInv : Inv s) (hT : TimeOK s now) : Inv (allow s ip now).2 := by
  obtain ⟨⟨hgB, hgR⟩, hmap, hir, hib⟩ := hInv
  have hgref : BucketInv (refillBucket s.globalBucket now) :=
    refill_preserves_BucketInv _ _ hgB hgR hT.1
  have hcb := clientBucketAt_Inv s ip now ⟨⟨hgB, hgR⟩, hmap, hir, hib⟩ hT
  simp only [allow]
  split_ifs with h1 h2
  · exact ⟨⟨hgref, hgR⟩, hmap, hir, hib⟩
  · refine ⟨⟨⟨?_, ?_⟩, hgR⟩, ?_, hir, hib⟩
    · show (0 : ℚ) ≤ (refillBucket s.globalBucket now).tokens - 1
      linarith [not_lt.mp h1]
    · show (refillBucket s.globalBucket now).tokens - 1
        ≤ ((refillBucket s.globalBucket now).capacity : ℚ)
      linarith [hgref.2]
    · intro k b hk
      by_cases hk' : k = ip
      · subst hk'
        simp only [eq_self_iff_true, if_true, Option.some.injEq] at hk
        rw [← hk]
        exact hcb
      · simp only [if_neg hk'] at hk
        exact hmap k b hk
  · refine ⟨⟨⟨?_, ?_⟩, hgR⟩, ?_, hir, hib⟩
    · show (0 : ℚ) ≤ (refillBucket s.globalBucket now).tokens - 1
      linarith [not_lt.mp h1]
    · show (refillBucket s.globalBucket now).tokens - 1
        ≤ ((refillBucket s.globalBucket now).capacity : ℚ)
      linarith [hgref.2]
    · intro k b hk
      by_cases hk' : k = ip
      · subst hk'
        simp only [eq_self_iff_true, if_true, Option.some.injEq] at hk
        rw [← hk]
        refine ⟨⟨?_, ?_⟩, hcb.2⟩
        · show (0 : ℚ) ≤ (clientBucketAt s k now).tokens - 1
          linarith [not_lt.mp h2]
        · show (clientBucketAt s k now).tokens - 1
            ≤ ((clientBucketAt s k now).capacity : ℚ)
          linarith [hcb.1.2]
      · simp only [if_neg hk'] at hk
        exact hmap k b hk

theorem cleanup_preserves_Inv (s : RateLimiter) (now : ℚ) (hInv : Inv s) :
    Inv (cleanup s now) := by
  obtain ⟨hg, hmap, hir, hib⟩ := hInv
  refine ⟨hg, ?_, hir, hib⟩
  intro k b hk
  simp only [cleanup] at hk
  cases h : s.ipLimits k with
  | none => simp [h] at hk
  | some c =>
      simp only [h] at hk
      by_cases hcond : c.tokens = (c.capacity : ℚ) ∧ now - c.lastRefil > s.cleanupEvery
      · rw [if_pos hcond] at hk
        exact absurd hk (by simp)
      · rw [if_neg hcond] at hk
        obtain rfl : c = b := Option.some.inj hk
        exact hmap k c h

theorem newRateLimiter_Inv (a : ℚ) (c : ℤ) (g : ℚ) (d : ℤ) (t0 : ℚ)
    (ha : 0 ≤ a) (hc : (0 : ℤ) ≤ c) (hg : 0 ≤ g) (hd : (0 : ℤ) ≤ d) :
    Inv (newRateLimiter a c g d t0) := by
  refine ⟨⟨⟨?_, ?_⟩, hg⟩, ?_, ha, hc⟩
  · show (0 : ℚ) ≤ ((d : ℤ) : ℚ)
    exact_mod_cast hd
  · show ((d : ℤ) : ℚ) ≤ ((d : ℤ) : ℚ)
    exact le_refl _
  · intro ip b hb
    exact absurd hb (by simp [newRateLimiter])

/-- C4 (amended): assuming the four configuration scalars are nonnegative
and timestamps are monotone non-decreasing, `0 ≤ tokens ≤ capacity` (plus a
nonnegative rate) holds for the global and every per-client bucket after
construction, and is preserved by every `Allow` call and every janitor
sweep. -/
theorem tokens_invariant (a : ℚ) (c : ℤ) (g : ℚ) (d : ℤ) (t0 : ℚ)
    (s : RateLimiter) (ip : String) (now : ℚ) :
    (0 ≤ a → (0 : ℤ) ≤ c → 0 ≤ g → (0 : ℤ) ≤ d →
      Inv (newRateLimiter a c g d t0)) ∧
    (Inv s → TimeOK s now → Inv (allow s ip now).2) ∧
    (Inv s → Inv (cleanup s now)) :=
  ⟨fun ha hc hg hd => newRateLimiter_Inv a c g d t0 ha hc hg hd,
   fun hI hT => allow_preserves_Inv s ip now hI hT,
   fun hI => cleanup_preserves_Inv s now hI⟩

/-- C4 (counterexample): constructed with a negative global burst, the
global bucket's token count is negative immediately after construction, so
the unconditional claim — which assumes nothing about the configuration
values even though the constructor never validates them — is false. -/
theorem tokens_invariant_counterexample :
    (newRateLimiter 1 1 1 (-1) 0).globalBucket.tokens < 0 := by
  norm_num [newRateLimiter]

/-- C4 (witness): the amended invariant instantiated on a concrete
well-configured limiter, one `Allow` call and one sweep. -/
theorem tokens_invariant_witness :
    Inv (newRateLimiter 1 1 1 1 0) ∧
    TimeOK (newRateLimiter 1 1 1 1 0) 0 ∧
    Inv (allow (newRateLimiter 1 1 1 1 0) "w" 0).2 ∧
    Inv (cleanup (newRateLimiter 1 1 1 1 0) 0) := by
  have h := tokens_invariant 1 1 1 1 0 (newRateLimiter 1 1 1 1 0) "w" 0
  have hI : Inv (newRateLimiter 1 1 1 1 0) :=
    h.1 (by norm_num) (by norm_num) (by norm_num) (by norm_num)
  have hT : TimeOK (newRateLimiter 1 1 1 1 0) 0 := by
    constructor
    · norm_num [newRateLimiter]
    · intro ip b hb
      exact absurd hb (by simp [newRateLimiter])
  exact ⟨hI, hT, h.2.1 hI hT, h.2.2 hI⟩

theorem allow_frame (s : RateLimiter) (A : String) (t : ℚ) (k : String)
    (hk : k ≠ A) :
    (allow s A t).2.ipLimits k = s.ipLimits k ∧
    (allow s A t).2.ipRate = s.ipRate ∧
    (allow s A t).2.ipBurst = s.ipBurst := by
  simp only [allow]
  split_ifs <;> simp [hk]

theorem allowRun_frame (n : Nat) (s : RateLimiter) (A : String) (t : ℚ)
    (k : String) (hk : k ≠ A) :
    (allowRun s A t n).2.ipLimits k = s.ipLimits k ∧
    (allowRun s A t n).2.ipRate = s.ipRate ∧
    (allowRun s A t n).2.ipBurst = s.ipBurst := by
  induction n generalizing s with
  | zero => exact ⟨rfl, rfl, rfl⟩
  | succ n ih =>
      simp only [allowRun]
      obtain ⟨h1, h2, h3⟩ := ih (allow s A t).2
      obtain ⟨g1, g2, g3⟩ := allow_frame s A t k hk
      exact ⟨h1.trans g1, h2.trans g2, h3.trans g3⟩

theorem allow_outcome_local (s₁ s₂ : RateLimiter) (B : String) (u : ℚ)
    (hB : s₁.ipLimits B = s₂.ipLimits B)
    (hrate : s₁.ipRate = s₂.ipRate) (hburst : s₁.ipBurst = s₂.ipBurst)
    (hg₁ : 1 ≤ (refillBucket s₁.globalBucket u).tokens)
    (hg₂ : 1 ≤ (refillBucket s₂.globalBucket u).tokens) :
    (allow s₁ B u).1 = (allow s₂ B u).1 := by
  have e : clientBucketAt s₁ B u = clientBucketAt s₂ B u := by
    simp only [clientBucketAt, hB, hrate, hburst]
  simp only [allow, if_neg (not_lt.mpr hg₁), if_neg (not_lt.mpr hg₂), e]
  split_ifs <;> rfl

/-- C7: `Allow(A)` calls never read or modify a distinct client B's bucket —
after any number of `Allow(A)` calls (e.g. enough to exhaust A's bucket),
B's map entry is exactly what it was, and as long as the global budget has
headroom in both scenarios, a subsequent `Allow(B)` returns the same
decision as it would have without the `Allow(A)` calls. -/
theorem allow_client_independence (s : RateLimiter) (A B : String) (n : Nat)
    (t u : ℚ) (hAB : B ≠ A)
    (hg₁ : 1 ≤ (refillBucket (allowRun s A t n).2.globalBucket u).tokens)
    (hg₂ : 1 ≤ (refillBucket s.globalBucket u).tokens) :
    (allowRun s A t n).2.ipLimits B = s.ipLimits B ∧
    (allow (allowRun s A t n).2 B u).1 = (allow s B u).1 := by
  obtain ⟨h1, h2, h3⟩ := allowRun_frame n s A t B hAB
  exact ⟨h1, allow_outcome_local _ _ B u h1 h2 h3 hg₁ hg₂⟩

/-- C7 (witness): three `Allow("a")` calls exhaust a's 1-token bucket; with
global headroom, `Allow("b")` still returns `true`, exactly as it does
without the prior calls, and b's entry is untouched. -/
theorem allow_client_independence_witness :
    ("b" : String) ≠ "a" ∧
    1 ≤ (refillBucket
      (allowRun (newRateLimiter 1 1 100 100 0) "a" 0 3).2.globalBucket 0).tokens ∧
    1 ≤ (refillBucket (newRateLimiter 1 1 100 100 0).globalBucket 0).tokens ∧
    (allowRun (newRateLimiter 1 1 100 100 0) "a" 0 3).2.ipLimits "b"
      = (newRateLimiter 1 1 100 100 0).ipLimits "b" ∧
    (allow (allowRun (newRateLimiter 1 1 100 100 0) "a" 0 3).2 "b" 0).1
      = (allow (newRateLimiter 1 1 100 100 0) "b" 0).1 := by
  have hAB : ("b" : String) ≠ "a" := by decide
  have hg₁ : 1 ≤ (refillBucket
      (allowRun (newRateLimiter 1 1 100 100 0) "a" 0 3).2.globalBucket 0).tokens := by
    norm_num [allowRun, allow, newRateLimiter, refillBucket, clientBucketAt, goMin]
  have hg₂ : 1 ≤ (refillBucket (newRateLimiter 1 1 100 100 0).globalBucket 0).tokens := by
    norm_num [newRateLimiter, refillBucket, goMin]
  obtain ⟨h1, h2⟩ := allow_client_independence (newRateLimiter 1 1 100 100 0)
    "a" "b" 3 0 0 hAB hg₁ hg₂
  exact ⟨hAB, hg₁, hg₂, h1, h2⟩

theorem refill_noop (b : TokenBucket) (now : ℚ)
    (hl : b.lastRefil = now) (hc : b.tokens ≤ (b.capacity : ℚ)) :
    refillBucket b now = b := by
  simp only [refillBucket, hl, sub_self, zero_mul, add_zero, goMin_eq_min,
    min_eq_right hc]
  rw [← hl]

/-- A state mid-burst at instant `now`: the client's bucket exists with `m`
tokens stamped `now`, the global bucket holds `t ≤ capacity` tokens stamped
`now`, and `m` does not exceed the per-client burst. -/
def Steady (s : RateLimiter) (ip : String) (now m t : ℚ) : Prop :=
  s.ipLimits ip = some { tokens := m, lastRefil := now,
                         capacity := s.ipBurst, rate := s.ipRate } ∧
  s.globalBucket.lastRefil = now ∧
  s.globalBucket.tokens = t ∧
  t ≤ (s.globalBucket.capacity : ℚ) ∧
  m ≤ (s.ipBurst : ℚ)

theorem steady_global_refill (s : RateLimiter) (ip : String) (now m t : ℚ)
    (hS : Steady s ip now m t) :
    refillBucket s.globalBucket now = s.globalBucket :=
  refill_noop _ _ hS.2.1 (by rw [hS.2.2.1]; exact hS.2.2.2.1)

theorem steady_client_refill (s : RateLimiter) (ip : String) (now m t : ℚ)
    (hS : Steady s ip now m t) :
    clientBucketAt s ip now
      = { tokens := m, lastRefil := now, capacity := s.ipBurst,
          rate := s.ipRate } := by
  simp only [clientBucketAt, hS.1]
  exact refill_noop _ _ rfl (by simpa using hS.2.2.2.2)

theorem allow_steady_admit (s : RateLimiter) (ip : String) (now m t : ℚ)
    (hS : Steady s ip now m t) (hm : 1 ≤ m) (ht : 1 ≤ t) :
    (allow s ip now).1 = true ∧
    Steady (allow s ip now).2 ip now (m - 1) (t - 1) ∧
    (allow s ip now).2.ipRate = s.ipRate ∧
    (allow s ip now).2.ipBurst = s.ipBurst ∧
    (allow s ip now).2.globalBucket.rate = s.globalBucket.rate ∧
    (allow s ip now).2.globalBucket.capacity = s.globalBucket.capacity := by
  have hgre := steady_global_refill s ip now m t hS
  have hcl := steady_client_refill s ip now m t hS
  have hg1 : ¬ (refillBucket s.globalBucket now).tokens < 1 := by
    rw [hgre, hS.2.2.1]; exact not_lt.mpr ht
  have hc1 : ¬ (clientBucketAt s ip now).tokens < 1 := by
    rw [hcl]; exact not_lt.mpr hm
  simp only [allow, if_neg hg1, if_neg hc1, Steady]
  refine ⟨trivial, ⟨?_, ?_, ?_, ?_, ?_⟩, trivial, trivial, ?_, ?_⟩
  · rw [if_pos trivial, hcl]
  · rw [hgre, hS.2.1]
  · rw [hgre, hS.2.2.1]
  · rw [hgre]; linarith [hS.2.2.2.1]
  · linarith [hS.2.2.2.2]
  · rw [hgre]
  · rw [hgre]

theorem allow_steady_reject (s : RateLimiter) (ip : String) (now m t : ℚ)
    (hS : Steady s ip now m t) (hm : m < 1) (ht : 1 ≤ t) :
    (allow s ip now).1 = false ∧
    Steady (allow s ip now).2 ip now m (t - 1) ∧
    (allow s ip now).2.ipRate = s.ipRate ∧
    (allow s ip now).2.ipBurst = s.ipBurst ∧
    (allow s ip now).2.globalBucket.rate = s.globalBucket.rate ∧
    (allow s ip now).2.globalBucket.capacity = s.globalBucket.capacity := by
  have hgre := steady_global_refill s ip now m t hS
  have hcl := steady_client_refill s ip now m t hS
  have hg1 : ¬ (refillBucket s.globalBucket now).tokens < 1 := by
    rw [hgre, hS.2.2.1]; exact not_lt.mpr ht
  have hc1 : (clientBucketAt s ip now).tokens < 1 := by
    rw [hcl]; exact hm
  simp only [allow, if_neg hg1, if_pos hc1, Steady]
  refine ⟨trivial, ⟨?_, ?_, ?_, ?_, ?_⟩, trivial, trivial, ?_, ?_⟩
  · rw [if_pos trivial, hcl]
  · rw [hgre, hS.2.1]
  · rw [hgre, hS.2.2.1]
  · rw [hgre]; linarith [hS.2.2.2.1]
  · exact hS.2.2.2.2
  · rw [hgre]
  · rw [hgre]

theorem allowRun_steady (ip : String) (now : ℚ) (k : Nat) :
    ∀ (s : RateLimiter) (m t : ℚ), Steady s ip now m t →
      (k : ℚ) ≤ m → (k : ℚ) ≤ t →
      (allowRun s ip now k).1 = List.replicate k true ∧
      Steady (allowRun s ip now k).2 ip now (m - k) (t - k) ∧
      (allowRun s ip now k).2.ipRate = s.ipRate ∧
      (allowRun s ip now k).2.ipBurst = s.ipBurst ∧
      (allowRun s ip now k).2.globalBucket.rate = s.globalBucket.rate ∧
      (allowRun s ip now k).2.globalBucket.capacity = s.globalBucket.capacity := by
  induction k with
  | zero =>
      intro s m t hS _ _
      refine ⟨rfl, ?_, rfl, rfl, rfl, rfl⟩
      push_cast
      simpa using hS
  | succ k ih =>
      intro s m t hS hm ht
      have hm' : ((k : ℚ)) + 1 ≤ m := by push_cast at hm; linarith
      have ht' : ((k : ℚ)) + 1 ≤ t := by push_cast at ht; linarith
      have hk0 : (0 : ℚ) ≤ (k : ℚ) := Nat.cast_nonneg k
      obtain ⟨hr1, hS1, e1, e2, e3, e4⟩ :=
        allow_steady_admit s ip now m t hS (by linarith) (by linarith)
      obtain ⟨hr2, hS2, f1, f2, f3, f4⟩ :=
        ih (allow s ip now).2 (m - 1) (t - 1) hS1 (by linarith) (by linarith)
      simp only [allowRun]
      refine ⟨?_, ?_, f1.trans e1, f2.trans e2, f3.trans e3, f4.trans e4⟩
      · rw [hr1, hr2, List.replicate_succ]
      · have em : m - ((k : ℕ) + 1 : ℕ) = m - 1 - (k : ℚ) := by push_cast; ring
        have et : t - ((k : ℕ) + 1 : ℕ) = t - 1 - (k : ℚ) := by push_cast; ring
        rw [em, et]
        exact hS2

theorem allowRun_add (s : RateLimiter) (ip : String) (now : ℚ) (k₁ k₂ : Nat) :
    allowRun s ip now (k₁ + k₂)
      = ((allowRun s ip now k₁).1
           ++ (allowRun (allowRun s ip now k₁).2 ip now k₂).1,
         (allowRun (allowRun s ip now k₁).2 ip now k₂).2) := by
  induction k₁ generalizing s with
  | zero => simp [allowRun]
  | succ k ih =>
      have e : k + 1 + k₂ = (k + k₂) + 1 := by omega
      rw [e]
      simp only [allowRun]
      rw [ih]
      simp [List.cons_append]

theorem allow_first_admit (s : RateLimiter) (ip : String) (now : ℚ)
    (hnew : s.ipLimits ip = none) (hburst : 1 ≤ (s.ipBurst : ℚ))
    (hg : 1 ≤ (refillBucket s.globalBucket now).tokens) :
    (allow s ip now).1 = true ∧
    Steady (allow s ip now).2 ip now ((s.ipBurst : ℚ) - 1)
      ((refillBucket s.globalBucket now).tokens - 1) ∧
    (allow s ip now).2.ipRate = s.ipRate ∧
    (allow s ip now).2.ipBurst = s.ipBurst ∧
    (allow s ip now).2.globalBucket.rate = s.globalBucket.rate ∧
    (allow s ip now).2.globalBucket.capacity = s.globalBucket.capacity := by
  have hcl : clientBucketAt s ip now
      = { tokens := (s.ipBurst : ℚ), lastRefil := now,
          capacity := s.ipBurst, rate := s.ipRate } := by
    simp only [clientBucketAt, hnew]
  have hg1 : ¬ (refillBucket s.globalBucket now).tokens < 1 := not_lt.mpr hg
  have hc1 : ¬ (clientBucketAt s ip now).tokens < 1 := by
    rw [hcl]; exact not_lt.mpr hburst
  have hcap : (refillBucket s.globalBucket now).tokens
      ≤ ((refillBucket s.globalBucket now).capacity : ℚ) := goMin_le_left _ _
  simp only [allow, if_neg hg1, if_neg hc1, Steady]
  refine ⟨by trivial, ⟨?_, by trivial, by trivial, ?_, ?_⟩,
    by trivial, by trivial, by trivial, by trivial⟩
  · rw [if_pos trivial, hcl]
  · linarith
  · linarith

theorem allow_refill_recovery (s : RateLimiter) (ip : String) (now t : ℚ)
    (hS : Steady s ip now 0 t) (ht : 1 ≤ t)
    (hrate : 0 < s.ipRate) (hgrate : 0 ≤ s.globalBucket.rate)
    (hburst : 1 ≤ (s.ipBurst : ℚ)) :
    (allow s ip (now + 1 / s.ipRate)).1 = true ∧
    (allow (allow s ip (now + 1 / s.ipRate)).2 ip (now + 1 / s.ipRate)).1
      = false := by
  obtain ⟨hmap, hgl, hgt, hgc, _⟩ := hS
  have hstep : (0 : ℚ) ≤ 1 / s.ipRate := by positivity
  have hgref : 1 ≤ (refillBucket s.globalBucket (now + 1 / s.ipRate)).tokens := by
    show 1 ≤ goMin _ _
    apply one_le_goMin
    · calc (1 : ℚ) ≤ t := ht
        _ ≤ _ := hgc
    · rw [hgt, hgl]
      have : now + 1 / s.ipRate - now = 1 / s.ipRate := by ring
      rw [this]
      nlinarith
  have hclfull : clientBucketAt s ip (now + 1 / s.ipRate)
      = { tokens := 1, lastRefil := now + 1 / s.ipRate,
          capacity := s.ipBurst, rate := s.ipRate } := by
    have e : (now + 1 / s.ipRate - now) * s.ipRate = 1 := by
      have e0 : now + 1 / s.ipRate - now = 1 / s.ipRate := by ring
      rw [e0, one_div, inv_mul_cancel₀ (ne_of_gt hrate)]
    simp only [clientBucketAt, hmap, refillBucket, e, zero_add, goMin]
    rw [if_neg (not_lt.mpr hburst)]
  have hc1 : ¬ (clientBucketAt s ip (now + 1 / s.ipRate)).tokens < 1 := by
    rw [hclfull]; norm_num
  have h1 : (allow s ip (now + 1 / s.ipRate)).1 = true := by
    simp only [allow, if_neg (not_lt.mpr hgref), if_neg hc1]
  have hmap' : (allow s ip (now + 1 / s.ipRate)).2.ipLimits ip
      = some { tokens := 0, lastRefil := now + 1 / s.ipRate,
               capacity := s.ipBurst, rate := s.ipRate } := by
    simp only [allow, if_neg (not_lt.mpr hgref), if_neg hc1]
    rw [if_pos trivial, hclfull]
    norm_num
  have hcl2 : (clientBucketAt (allow s ip (now + 1 / s.ipRate)).2 ip
      (now + 1 / s.ipRate)).tokens = 0 := by
    simp only [clientBucketAt, hmap', refillBucket, sub_self, zero_mul,
      add_zero, goMin]
    rw [if_neg (not_lt.mpr (by linarith : (0 : ℚ) ≤ ((s.ipBurst : ℤ) : ℚ)))]
  have final : ∀ s' : RateLimiter,
      (clientBucketAt s' ip (now + 1 / s.ipRate)).tokens = 0 →
      (allow s' ip (now + 1 / s.ipRate)).1 = false := by
    intro s' h0
    simp only [allow]
    split_ifs with hA hB
    · rfl
    · rfl
    · exact absurd (by rw [h0]; norm_num) hB
  exact ⟨h1, final _ hcl2⟩

/-- C2: for a never-before-seen client with per-client burst capacity
`C ≥ 1`, positive per-client rate, and a global budget that is not the
limiting factor, exactly `C` consecutive immediate `Allow` calls succeed
and the `(C+1)`-th fails; advancing the simulated clock by `1/rate` seconds
then restores exactly one token — the next call succeeds and a further call
at the same instant fails again. -/
theorem burst_admission_and_refill_recovery (s : RateLimiter) (ip : String)
    (now : ℚ) (C : ℕ)
    (hC : s.ipBurst = (C : ℤ)) (hC1 : 1 ≤ C)
    (hnew : s.ipLimits ip = none)
    (hipr : 0 < s.ipRate) (hgr : 0 ≤ s.globalBucket.rate)
    (hG : (C : ℚ) + 2 ≤ (refillBucket s.globalBucket now).tokens) :
    (allowRun s ip now (C + 1)).1 = List.replicate C true ++ [false] ∧
    (allow (allowRun s ip now (C + 1)).2 ip (now + 1 / s.ipRate)).1 = true ∧
    (allow (allow (allowRun s ip now (C + 1)).2 ip (now + 1 / s.ipRate)).2 ip
        (now + 1 / s.ipRate)).1 = false := by
  obtain ⟨c, rfl⟩ : ∃ d, C = d + 1 := ⟨C - 1, (Nat.succ_pred_eq_of_pos hC1).symm⟩
  push_cast at hG
  have hc0 : (0 : ℚ) ≤ (c : ℚ) := Nat.cast_nonneg c
  have hburst : 1 ≤ (s.ipBurst : ℚ) := by
    rw [hC]; push_cast; linarith
  have hg1 : 1 ≤ (refillBucket s.globalBucket now).tokens := by linarith
  obtain ⟨hr1, hS1, e1, e2, e3, e4⟩ := allow_first_admit s ip now hnew hburst hg1
  have hm1 : (c : ℚ) ≤ (s.ipBurst : ℚ) - 1 := by rw [hC]; push_cast; linarith
  have ht1 : (c : ℚ) ≤ (refillBucket s.globalBucket now).tokens - 1 := by
    linarith
  obtain ⟨hr2, hS2, f1, f2, f3, f4⟩ :=
    allowRun_steady ip now c (allow s ip now).2 _ _ hS1 hm1 ht1
  have em : (s.ipBurst : ℚ) - 1 - (c : ℚ) = 0 := by rw [hC]; push_cast; ring
  rw [em] at hS2
  have ht2 : 1 ≤ (refillBucket s.globalBucket now).tokens - 1 - (c : ℚ) := by
    linarith
  obtain ⟨hr3, hS3, g1, g2, g3, g4⟩ :=
    allow_steady_reject (allowRun (allow s ip now).2 ip now c).2 ip now 0 _ hS2
      (by norm_num) ht2
  have hd1 : allowRun s ip now (c + 1 + 1)
      = ((allow s ip now).1 :: (allowRun (allow s ip now).2 ip now (c + 1)).1,
         (allowRun (allow s ip now).2 ip now (c + 1)).2) := rfl
  have hd2 := allowRun_add (allow s ip now).2 ip now c 1
  have hd3 : allowRun (allowRun (allow s ip now).2 ip now c).2 ip now 1
      = ([(allow (allowRun (allow s ip now).2 ip now c).2 ip now).1],
         (allow (allowRun (allow s ip now).2 ip now c).2 ip now).2) := rfl
  have hst : (allowRun s ip now (c + 1 + 1)).2
      = (allow (allowRun (allow s ip now).2 ip now c).2 ip now).2 := by
    rw [hd1]
    dsimp only
    rw [hd2]
    dsimp only
    rw [hd3]
  have erate : (allow (allowRun (allow s ip now).2 ip now c).2 ip now).2.ipRate
      = s.ipRate := g1.trans (f1.trans e1)
  have eburst : (allow (allowRun (allow s ip now).2 ip now c).2 ip now).2.ipBurst
      = s.ipBurst := g2.trans (f2.trans e2)
  have egrate :
      (allow (allowRun (allow s ip now).2 ip now c).2 ip now).2.globalBucket.rate
        = s.globalBucket.rate := g3.trans (f3.trans e3)
  have rec := allow_refill_recovery
    (allow (allowRun (allow s ip now).2 ip now c).2 ip now).2 ip now _ hS3
    (by linarith)
    (by rw [erate]; exact hipr)
    (by rw [egrate]; exact hgr)
    (by rw [eburst]; exact hburst)
  rw [erate] at rec
  refine ⟨?_, ?_, ?_⟩
  · rw [hd1]
    dsimp only
    rw [hd2]
    dsimp only
    rw [hd3]
    dsimp only
    rw [hr1, hr2, hr3]
    simp [List.replicate_succ]
  · rw [hst]
    exact rec.1
  · rw [hst]
    exact rec.2

/-- C2 (witness): the spec scenario `ipRate=1, ipBurst=2, globalRate=100,
globalBurst=100`: two immediate `Allow("1.1.1.1")` calls are admitted, the
third immediate call is rejected, and after advancing the simulated clock
by 1 second the next call is admitted (and a further call at that instant
is rejected). -/
theorem burst_admission_and_refill_recovery_witness :
    (allowRun (newRateLimiter 1 2 100 100 0) "1.1.1.1" 0 3).1
        = [true, true, false] ∧
    (allow (allowRun (newRateLimiter 1 2 100 100 0) "1.1.1.1" 0 3).2
        "1.1.1.1" 1).1 = true ∧
    (allow (allow (allowRun (newRateLimiter 1 2 100 100 0) "1.1.1.1" 0 3).2
        "1.1.1.1" 1).2 "1.1.1.1" 1).1 = false := by
  have h := burst_admission_and_refill_recovery (newRateLimiter 1 2 100 100 0)
    "1.1.1.1" 0 2
    (by norm_num [newRateLimiter]) (by norm_num)
    rfl
    (by norm_num [newRateLimiter])
    (by norm_num [newRateLimiter])
    (by norm_num [newRateLimiter, refillBucket, goMin])
  have e1 : (0 : ℚ) + 1 / (newRateLimiter 1 2 100 100 0).ipRate = 1 := by
    norm_num [newRateLimiter]
  rw [e1] at h
  obtain ⟨h1, h2, h3⟩ := h
  exact ⟨by rw [h1]; rfl, h2, h3⟩

end Gateway
